import Mathlib

/-!
# ldaptestserver: filter evaluation, bind and search handlers

A shallow embedding of `src/ldaptestserver.go`.

* Go strings are modelled by `String`; the program only compares strings for
  equality and concatenates them.
* A Go `map[string]T` literal is modelled by an association list read with
  `List.lookup` (keys of a map literal are distinct).
* The recursion of the filter evaluator is bounded by a `fuel` argument that
  stands for the remaining depth of the goroutine stack: every call consumes
  one unit, and `none` is the stack being exhausted before the call returns.
* Log output is not modelled.
-/

namespace LdapTestServer

/-! ## Data model -/

/-- The dynamic value held by an `interface{}` slot of an entry: a `string`,
a `[]string`, or a value of any other dynamic type (including `nil`). -/
inductive Value where
  | string (s : String)
  | strings (value : List String)
  | other
  deriving DecidableEq

/-- An entry of the directory, `map[string]interface{}`. -/
abbrev Entry := List (String × Value)

/-- The filter kinds of `message.Filter` (package `goldap/message`).
`FilterAnd` and `FilterOr` are slices of filters, `FilterNot` wraps one filter,
`FilterEqualityMatch` is an attribute description with an assertion value; the
remaining constructors are the kinds the evaluator has no case for. -/
inductive Filter where
  | FilterAnd (f : List Filter)
  | FilterOr (f : List Filter)
  | FilterNot (f : Filter)
  | FilterEqualityMatch (attributeDesc : String) (assertionValue : String)
  | FilterSubstrings (type_ : String) (substrings : List String)
  | FilterGreaterOrEqual (attributeDesc : String) (assertionValue : String)
  | FilterLessOrEqual (attributeDesc : String) (assertionValue : String)
  | FilterPresent (attributeDesc : String)
  | FilterApproxMatch (attributeDesc : String) (assertionValue : String)
  | FilterExtensibleMatch (matchingRule : Option String) (type_ : Option String)
      (matchValue : String) (dnAttributes : Bool)

/-! ## The filter evaluator (`matches`, lines 34-68)

`matches` is a reserved word of Lean, so the function is called `matchesFilter`.
-/

/-- The loop of the `FilterOr` case (lines 37-42): the children are evaluated in
order by `m`; the first child that yields `true` ends the loop with `true`, and
`false` is returned once every child has yielded `false`. A child whose
evaluation does not return (`none`) keeps the loop from returning. -/
def orLoop (m : Filter → Option Bool) : List Filter → Option Bool
  | [] => some false
  | sf :: rest =>
    match m sf with
    | none => none
    | some true => some true
    | some false => orLoop m rest

/-- The loop of the `FilterAnd` case (lines 44-49): the first child that yields
`false` ends the loop with `false`; `true` is returned once every child has
yielded `true`. -/
def andLoop (m : Filter → Option Bool) : List Filter → Option Bool
  | [] => some true
  | sf :: rest =>
    match m sf with
    | none => none
    | some false => some false
    | some true => andLoop m rest

/-- The loop of the `[]string` case (lines 59-64). -/
def stringsLoop (expected : String) : List String → Bool
  | [] => false
  | s :: rest => if s = expected then true else stringsLoop expected rest

/-- The `FilterEqualityMatch` case (lines 53-65 and, when neither case of the
inner type switch applies, the final `return true` of line 67). An absent key
reads as the `nil` interface value, for which the inner switch has no case. -/
def equalityMatch (entry : Entry) (attributeDesc : String) (expected : String) : Bool :=
  match entry.lookup attributeDesc with
  | some (Value.string s) => decide (s = expected)
  | some (Value.strings value) => stringsLoop expected value
  | some Value.other => true
  | none => true

/-- The function `matches` of the source. `fuel` bounds the depth of the call
stack. In the `FilterNot` case the source passes `f`, the value bound by the
type switch, to the recursive call (line 51); `f` has type `message.FilterNot`,
so the callee receives the very filter the caller was given. -/
def matchesFilter : Nat → Filter → Entry → Option Bool
  | 0, _, _ => none
  | fuel + 1, filter, entry =>
    match filter with
    | Filter.FilterOr f => orLoop (fun sf => matchesFilter fuel sf entry) f
    | Filter.FilterAnd f => andLoop (fun sf => matchesFilter fuel sf entry) f
    | Filter.FilterNot _ => (matchesFilter fuel filter entry).map (fun b => !b)
    | Filter.FilterEqualityMatch attributeDesc assertionValue =>
      some (equalityMatch entry attributeDesc assertionValue)
    | _ => some true

/-- The call `matches(filter, entry)` returns the boolean `b`. -/
def Returns (filter : Filter) (entry : Entry) (b : Bool) : Prop :=
  ∃ fuel, matchesFilter fuel filter entry = some b

/-- The call `matches(filter, entry)` never returns, whatever the stack depth. -/
def Diverges (filter : Filter) (entry : Entry) : Prop :=
  ∀ fuel, matchesFilter fuel filter entry = none

mutual
/-- The filter tree contains no `FilterNot` node. -/
def Filter.notFree : Filter → Bool
  | Filter.FilterAnd cs => notFreeList cs
  | Filter.FilterOr cs => notFreeList cs
  | Filter.FilterNot _ => false
  | _ => true
/-- No filter tree of the list contains a `FilterNot` node. -/
def notFreeList : List Filter → Bool
  | [] => true
  | c :: cs => c.notFree && notFreeList cs
end


/-! ## The bind handler (lines 71-93) -/

/-- Result code `LDAPResultSuccess` of package `ldapserver`. -/
def LDAPResultSuccess : Nat := 0

/-- Result code `LDAPResultInvalidCredentials` of package `ldapserver`. -/
def LDAPResultInvalidCredentials : Nat := 49

/-- A bind response: its result code and its diagnostic message, which is the
empty string until `SetDiagnosticMessage` is called. -/
structure BindResponse where
  resultCode : Nat
  diagnosticMessage : String
  deriving DecidableEq

/-- The constructor `ldap.NewBindResponse`. -/
def NewBindResponse (resultCode : Nat) : BindResponse :=
  ⟨resultCode, ""⟩

/-- The method `SetResultCode`. -/
def BindResponse.SetResultCode (res : BindResponse) (code : Nat) : BindResponse :=
  ⟨code, res.diagnosticMessage⟩

/-- The method `SetDiagnosticMessage`. -/
def BindResponse.SetDiagnosticMessage (res : BindResponse) (message : String) : BindResponse :=
  ⟨res.resultCode, message⟩

/-- The credential store `binds` (lines 71-75). -/
def binds : List (String × String) :=
  [("mail=bind@example.com,dc=example,dc=com", "1234"),
   ("mail=adam@example.com,dc=example,dc=com", "adam1234"),
   ("mail=john@example.com,dc=example,dc=com", "john1234")]

/-- Indexing a `map[string]string`: a missing key reads as the empty string. -/
def mapIndex (m : List (String × String)) (key : String) : String :=
  match m.lookup key with
  | some v => v
  | none => ""

/-- The bind handler (lines 80-93) over the credential store it closes over,
given the name and the simple authentication of the request; the result is the
list of responses written. -/
def bindHandler (store : List (String × String)) (name : String)
    (authenticationSimple : String) : List BindResponse :=
  let res := NewBindResponse LDAPResultSuccess
  if mapIndex store name = authenticationSimple then
    [res]
  else
    [(res.SetResultCode LDAPResultInvalidCredentials).SetDiagnosticMessage "invalid credentials"]

/-! ## The search handler (lines 94-155) -/

/-- The first entry of `db` (lines 103-114). -/
def adam : Entry :=
  [("cn", Value.string "Adam Doe"),
   ("mail", Value.string "adam@example.com"),
   ("uid", Value.string "199"),
   ("objectClass",
     Value.strings ["Gperson", "Gstaff", "top", "posixAccount", "inetOrgPerson"])]

/-- The second entry of `db` (lines 115-126). -/
def john : Entry :=
  [("cn", Value.string "John Doe"),
   ("mail", Value.string "john@example.com"),
   ("uid", Value.string "11"),
   ("objectClass",
     Value.strings ["Gperson", "Gstudent", "top", "posixAccount", "inetOrgPerson"])]

/-- The directory `db` (lines 102-127). -/
def db : List Entry :=
  [adam, john]

/-- The scan of lines 128-134: the entries are tried in order and the first one
the filter matches is kept (`break`). `some none` is `matchingUser == nil` after
the loop; `none` is a call of `matches` that did not return. -/
def findMatchingUser (fuel : Nat) (filter : Filter) : List Entry → Option (Option Entry)
  | [] => some none
  | user :: rest =>
    match matchesFilter fuel filter user with
    | none => none
    | some true => some (some user)
    | some false => findMatchingUser fuel filter rest

/-- The attribute projection of lines 141-151: for each requested attribute, in
request order, one `AddAttribute` call per value held by the entry, and none
when the entry has no `string` or `[]string` under that name. Each call is
recorded as the pair of the attribute description and the value added. -/
def addAttributes (matchingUser : Entry) : List String → List (String × String)
  | [] => []
  | attr :: rest =>
    (match matchingUser.lookup attr with
      | some (Value.string value) => [(attr, value)]
      | some (Value.strings value) => value.map (fun item => (attr, item))
      | some Value.other => []
      | none => []) ++ addAttributes matchingUser rest

/-- A search request: the fields read by the handler (lines 95-100, 130, 141). -/
structure SearchRequest where
  baseObject : String
  filter : Filter
  attributes : List String
  timeLimit : Int

/-- The responses the search handler writes. -/
inductive SearchResponse where
  | SearchResultEntry (objectName : String) (attributes : List (String × String))
  | SearchResultDoneResponse (resultCode : Nat)
  deriving DecidableEq

/-- How a run of the search handler ends: the stack is exhausted inside
`matches`, the type assertion of line 140 panics, or the handler returns after
writing the given responses. No response is written before either failure. -/
inductive Outcome where
  | stackOverflow
  | panicked
  | returned (written : List SearchResponse)
  deriving DecidableEq

/-- The search handler (lines 94-155) over the directory it scans. -/
def searchHandler (fuel : Nat) (directory : List Entry) (r : SearchRequest) : Outcome :=
  match findMatchingUser fuel r.filter directory with
  | none => Outcome.stackOverflow
  | some none => Outcome.returned [SearchResponse.SearchResultDoneResponse LDAPResultSuccess]
  | some (some matchingUser) =>
    match matchingUser.lookup "mail" with
    | some (Value.string mail) =>
      Outcome.returned
        [SearchResponse.SearchResultEntry ("mail=" ++ mail ++ ",dc=example,dc=com")
           (addAttributes matchingUser r.attributes),
         SearchResponse.SearchResultDoneResponse LDAPResultSuccess]
    | _ => Outcome.panicked

/-! ## Lemmas on the evaluator -/

theorem matchesFilter_zero (filter : Filter) (entry : Entry) :
    matchesFilter 0 filter entry = none := rfl

theorem matchesFilter_succ_FilterAnd (fuel : Nat) (cs : List Filter) (entry : Entry) :
    matchesFilter (fuel + 1) (Filter.FilterAnd cs) entry
      = andLoop (fun sf => matchesFilter fuel sf entry) cs := rfl

theorem matchesFilter_succ_FilterOr (fuel : Nat) (cs : List Filter) (entry : Entry) :
    matchesFilter (fuel + 1) (Filter.FilterOr cs) entry
      = orLoop (fun sf => matchesFilter fuel sf entry) cs := rfl

theorem matchesFilter_succ_FilterNot (fuel : Nat) (f : Filter) (entry : Entry) :
    matchesFilter (fuel + 1) (Filter.FilterNot f) entry
      = (matchesFilter fuel (Filter.FilterNot f) entry).map (fun b => !b) := rfl

theorem matchesFilter_succ_FilterEqualityMatch (fuel : Nat) (a v : String) (entry : Entry) :
    matchesFilter (fuel + 1) (Filter.FilterEqualityMatch a v) entry
      = some (equalityMatch entry a v) := rfl

/-- A call on a `FilterNot` filter calls itself on the same filter at every
depth, so no stack depth lets it return. -/
theorem matchesFilter_FilterNot_none (f : Filter) (entry : Entry) :
    ∀ fuel, matchesFilter fuel (Filter.FilterNot f) entry = none := by
  intro fuel
  induction fuel with
  | zero => rfl
  | succ n ih => rw [matchesFilter_succ_FilterNot, ih]; rfl

theorem andLoop_mono {m m2 : Filter → Option Bool}
    (h : ∀ sf b, m sf = some b → m2 sf = some b) :
    ∀ (cs : List Filter) (b : Bool), andLoop m cs = some b → andLoop m2 cs = some b := by
  intro cs
  induction cs with
  | nil => intro b hb; simpa [andLoop] using hb
  | cons sf rest ih =>
    intro b hb
    cases hm : m sf with
    | none => simp [andLoop, hm] at hb
    | some v =>
      have h2 := h sf v hm
      cases v
      · simp only [andLoop, hm] at hb
        simp only [andLoop, h2]
        exact hb
      · simp only [andLoop, hm] at hb
        simp only [andLoop, h2]
        exact ih b hb

theorem orLoop_mono {m m2 : Filter → Option Bool}
    (h : ∀ sf b, m sf = some b → m2 sf = some b) :
    ∀ (cs : List Filter) (b : Bool), orLoop m cs = some b → orLoop m2 cs = some b := by
  intro cs
  induction cs with
  | nil => intro b hb; simpa [orLoop] using hb
  | cons sf rest ih =>
    intro b hb
    cases hm : m sf with
    | none => simp [orLoop, hm] at hb
    | some v =>
      have h2 := h sf v hm
      cases v
      · simp only [orLoop, hm] at hb
        simp only [orLoop, h2]
        exact ih b hb
      · simp only [orLoop, hm] at hb
        simp only [orLoop, h2]
        exact hb

/-- One more unit of stack never changes a result already obtained. -/
theorem matchesFilter_succ_mono (entry : Entry) :
    ∀ (fuel : Nat) (filter : Filter) (b : Bool),
      matchesFilter fuel filter entry = some b →
      matchesFilter (fuel + 1) filter entry = some b := by
  intro fuel
  induction fuel with
  | zero => intro filter b hb; simp [matchesFilter_zero] at hb
  | succ n ih =>
    intro filter b hb
    cases filter with
    | FilterAnd cs =>
      rw [matchesFilter_succ_FilterAnd] at hb ⊢
      exact andLoop_mono (fun sf c hc => ih sf c hc) cs b hb
    | FilterOr cs =>
      rw [matchesFilter_succ_FilterOr] at hb ⊢
      exact orLoop_mono (fun sf c hc => ih sf c hc) cs b hb
    | FilterNot f => simp [matchesFilter_FilterNot_none] at hb
    | FilterEqualityMatch a v => exact hb
    | FilterSubstrings t ss => exact hb
    | FilterGreaterOrEqual a v => exact hb
    | FilterLessOrEqual a v => exact hb
    | FilterPresent a => exact hb
    | FilterApproxMatch a v => exact hb
    | FilterExtensibleMatch r t v d => exact hb

theorem matchesFilter_mono (entry : Entry) (filter : Filter) (b : Bool) {n k : Nat}
    (hnk : n ≤ k) (hb : matchesFilter n filter entry = some b) :
    matchesFilter k filter entry = some b := by
  induction hnk with
  | refl => exact hb
  | step _ ih => exact matchesFilter_succ_mono entry _ filter b ih

/-- A call returns at most one boolean. -/
theorem Returns_unique {filter : Filter} {entry : Entry} {b c : Bool}
    (hb : Returns filter entry b) (hc : Returns filter entry c) : b = c := by
  obtain ⟨n, hn⟩ := hb
  obtain ⟨k, hk⟩ := hc
  have h1 := matchesFilter_mono entry filter b (Nat.le_max_left n k) hn
  have h2 := matchesFilter_mono entry filter c (Nat.le_max_right n k) hk
  rw [h1] at h2
  exact Option.some.inj h2

theorem andLoop_eq_true_iff (m : Filter → Option Bool) (cs : List Filter) :
    andLoop m cs = some true ↔ ∀ c ∈ cs, m c = some true := by
  induction cs with
  | nil => simp [andLoop]
  | cons sf rest ih =>
    cases hm : m sf with
    | none => simp [andLoop, hm]
    | some v => cases v <;> simp [andLoop, hm, ih]

theorem andLoop_eq_false_iff (m : Filter → Option Bool) (cs : List Filter) :
    andLoop m cs = some false ↔
      ∃ pre c post, cs = pre ++ c :: post ∧ (∀ x ∈ pre, m x = some true) ∧ m c = some false := by
  induction cs with
  | nil => simp [andLoop]
  | cons sf rest ih =>
    constructor
    · intro h
      cases hm : m sf with
      | none => simp [andLoop, hm] at h
      | some v =>
        cases v
        · exact ⟨[], sf, rest, rfl, by simp, hm⟩
        · simp only [andLoop, hm] at h
          obtain ⟨pre, c, post, hcs, hpre, hc⟩ := ih.mp h
          refine ⟨sf :: pre, c, post, by simp [hcs], ?_, hc⟩
          intro x hx
          rcases List.mem_cons.mp hx with hx | hx
          · rw [hx]; exact hm
          · exact hpre x hx
    · rintro ⟨pre, c, post, hcs, hpre, hc⟩
      cases pre with
      | nil =>
        simp only [List.nil_append, List.cons.injEq] at hcs
        obtain ⟨h1, _⟩ := hcs
        simp [andLoop, h1, hc]
      | cons p pre2 =>
        simp only [List.cons_append, List.cons.injEq] at hcs
        obtain ⟨h1, h2⟩ := hcs
        have hp : m sf = some true := by rw [h1]; exact hpre p (by simp)
        simp only [andLoop, hp]
        exact ih.mpr ⟨pre2, c, post, h2, fun x hx => hpre x (by simp [hx]), hc⟩

theorem orLoop_eq_false_iff (m : Filter → Option Bool) (cs : List Filter) :
    orLoop m cs = some false ↔ ∀ c ∈ cs, m c = some false := by
  induction cs with
  | nil => simp [orLoop]
  | cons sf rest ih =>
    cases hm : m sf with
    | none => simp [orLoop, hm]
    | some v => cases v <;> simp [orLoop, hm, ih]

theorem orLoop_eq_true_iff (m : Filter → Option Bool) (cs : List Filter) :
    orLoop m cs = some true ↔
      ∃ pre c post, cs = pre ++ c :: post ∧ (∀ x ∈ pre, m x = some false) ∧ m c = some true := by
  induction cs with
  | nil => simp [orLoop]
  | cons sf rest ih =>
    constructor
    · intro h
      cases hm : m sf with
      | none => simp [orLoop, hm] at h
      | some v =>
        cases v
        · simp only [orLoop, hm] at h
          obtain ⟨pre, c, post, hcs, hpre, hc⟩ := ih.mp h
          refine ⟨sf :: pre, c, post, by simp [hcs], ?_, hc⟩
          intro x hx
          rcases List.mem_cons.mp hx with hx | hx
          · rw [hx]; exact hm
          · exact hpre x hx
        · exact ⟨[], sf, rest, rfl, by simp, hm⟩
    · rintro ⟨pre, c, post, hcs, hpre, hc⟩
      cases pre with
      | nil =>
        simp only [List.nil_append, List.cons.injEq] at hcs
        obtain ⟨h1, _⟩ := hcs
        simp [orLoop, h1, hc]
      | cons p pre2 =>
        simp only [List.cons_append, List.cons.injEq] at hcs
        obtain ⟨h1, h2⟩ := hcs
        have hp : m sf = some false := by rw [h1]; exact hpre p (by simp)
        simp only [orLoop, hp]
        exact ih.mpr ⟨pre2, c, post, h2, fun x hx => hpre x (by simp [hx]), hc⟩

/-- Finitely many calls that each return have a stack depth that suffices for
all of them. -/
theorem exists_common_fuel (entry : Entry) (b : Bool) :
    ∀ cs : List Filter, (∀ c ∈ cs, Returns c entry b) →
      ∃ n, ∀ c ∈ cs, matchesFilter n c entry = some b := by
  intro cs
  induction cs with
  | nil => intro _; exact ⟨0, by simp⟩
  | cons sf rest ih =>
    intro h
    obtain ⟨n, hn⟩ := h sf (by simp)
    obtain ⟨k, hk⟩ := ih (fun c hc => h c (by simp [hc]))
    refine ⟨max n k, ?_⟩
    intro c hc
    rcases List.mem_cons.mp hc with hc | hc
    · rw [hc]; exact matchesFilter_mono entry sf b (Nat.le_max_left n k) hn
    · exact matchesFilter_mono entry c b (Nat.le_max_right n k) (hk c hc)

theorem stringsLoop_eq_decide (expected : String) (l : List String) :
    stringsLoop expected l = decide (expected ∈ l) := by
  induction l with
  | nil => simp [stringsLoop]
  | cons s rest ih =>
    by_cases h : s = expected
    · simp [stringsLoop, h]
    · have h2 : ¬ expected = s := fun e => h e.symm
      simp [stringsLoop, h, h2, ih]

/-- An equality match on an attribute the entry does not hold falls through the
inner type switch to the final `return true`. -/
theorem equalityMatch_absent (entry : Entry) (a v : String) (h : entry.lookup a = none) :
    equalityMatch entry a v = true := by
  simp [equalityMatch, h]

/-! ## Lemmas on the scan of the search handler -/

theorem findMatchingUser_eq_none_iff (fuel : Nat) (filter : Filter) (directory : List Entry) :
    findMatchingUser fuel filter directory = some none ↔
      ∀ user ∈ directory, matchesFilter fuel filter user = some false := by
  induction directory with
  | nil => simp [findMatchingUser]
  | cons u rest ih =>
    cases hm : matchesFilter fuel filter u with
    | none => simp [findMatchingUser, hm]
    | some v => cases v <;> simp [findMatchingUser, hm, ih]

theorem findMatchingUser_eq_some_iff (fuel : Nat) (filter : Filter) (directory : List Entry)
    (user : Entry) :
    findMatchingUser fuel filter directory = some (some user) ↔
      ∃ pre post, directory = pre ++ user :: post ∧
        (∀ x ∈ pre, matchesFilter fuel filter x = some false) ∧
        matchesFilter fuel filter user = some true := by
  induction directory with
  | nil => simp [findMatchingUser]
  | cons u rest ih =>
    constructor
    · intro h
      cases hm : matchesFilter fuel filter u with
      | none => simp [findMatchingUser, hm] at h
      | some v =>
        cases v
        · simp only [findMatchingUser, hm] at h
          obtain ⟨pre, post, hd, hpre, hu⟩ := ih.mp h
          refine ⟨u :: pre, post, by simp [hd], ?_, hu⟩
          intro x hx
          rcases List.mem_cons.mp hx with hx | hx
          · rw [hx]; exact hm
          · exact hpre x hx
        · simp only [findMatchingUser, hm, Option.some.injEq] at h
          subst h
          exact ⟨[], rest, rfl, by simp, hm⟩
    · rintro ⟨pre, post, hd, hpre, hu⟩
      cases pre with
      | nil =>
        simp only [List.nil_append, List.cons.injEq] at hd
        obtain ⟨h1, _⟩ := hd
        simp [findMatchingUser, h1, hu]
      | cons p pre2 =>
        simp only [List.cons_append, List.cons.injEq] at hd
        obtain ⟨h1, h2⟩ := hd
        have hp : matchesFilter fuel filter u = some false := by rw [h1]; exact hpre p (by simp)
        simp only [findMatchingUser, hp]
        exact ih.mpr ⟨pre2, post, h2, fun x hx => hpre x (by simp [hx]), hu⟩

/-! ## Termination on trees without a `FilterNot` node -/

theorem andLoop_returns (m : Filter → Option Bool) (cs : List Filter)
    (h : ∀ c ∈ cs, ∃ b, m c = some b) : ∃ b, andLoop m cs = some b := by
  induction cs with
  | nil => exact ⟨true, rfl⟩
  | cons sf rest ih =>
    obtain ⟨v, hv⟩ := h sf (by simp)
    cases v
    · exact ⟨false, by simp only [andLoop, hv]⟩
    · obtain ⟨b, hb⟩ := ih (fun c hc => h c (by simp [hc]))
      exact ⟨b, by simp only [andLoop, hv, hb]⟩

theorem orLoop_returns (m : Filter → Option Bool) (cs : List Filter)
    (h : ∀ c ∈ cs, ∃ b, m c = some b) : ∃ b, orLoop m cs = some b := by
  induction cs with
  | nil => exact ⟨false, rfl⟩
  | cons sf rest ih =>
    obtain ⟨v, hv⟩ := h sf (by simp)
    cases v
    · obtain ⟨b, hb⟩ := ih (fun c hc => h c (by simp [hc]))
      exact ⟨b, by simp only [orLoop, hv, hb]⟩
    · exact ⟨true, by simp only [orLoop, hv]⟩

mutual
/-- A tree without a `FilterNot` node is evaluated within some stack depth. -/
theorem notFree_returns (entry : Entry) :
    ∀ (filter : Filter), filter.notFree = true →
      ∃ n b, matchesFilter n filter entry = some b
  | Filter.FilterAnd cs, h => by
    obtain ⟨n, hn⟩ := notFreeList_returns entry cs (by simpa [Filter.notFree] using h)
    obtain ⟨b, hb⟩ := andLoop_returns (fun sf => matchesFilter n sf entry) cs hn
    exact ⟨n + 1, b, by rw [matchesFilter_succ_FilterAnd]; exact hb⟩
  | Filter.FilterOr cs, h => by
    obtain ⟨n, hn⟩ := notFreeList_returns entry cs (by simpa [Filter.notFree] using h)
    obtain ⟨b, hb⟩ := orLoop_returns (fun sf => matchesFilter n sf entry) cs hn
    exact ⟨n + 1, b, by rw [matchesFilter_succ_FilterOr]; exact hb⟩
  | Filter.FilterNot _, h => by simp [Filter.notFree] at h
  | Filter.FilterEqualityMatch a v, _ => ⟨1, equalityMatch entry a v, rfl⟩
  | Filter.FilterSubstrings _ _, _ => ⟨1, true, rfl⟩
  | Filter.FilterGreaterOrEqual _ _, _ => ⟨1, true, rfl⟩
  | Filter.FilterLessOrEqual _ _, _ => ⟨1, true, rfl⟩
  | Filter.FilterPresent _, _ => ⟨1, true, rfl⟩
  | Filter.FilterApproxMatch _ _, _ => ⟨1, true, rfl⟩
  | Filter.FilterExtensibleMatch _ _ _ _, _ => ⟨1, true, rfl⟩
/-- The trees of a list without a `FilterNot` node are all evaluated within one
common stack depth. -/
theorem notFreeList_returns (entry : Entry) :
    ∀ (cs : List Filter), notFreeList cs = true →
      ∃ n, ∀ c ∈ cs, ∃ b, matchesFilter n c entry = some b
  | [], _ => ⟨0, by simp⟩
  | c :: cs, h => by
    have h2 : c.notFree = true ∧ notFreeList cs = true := by simpa [notFreeList] using h
    obtain ⟨n, b, hb⟩ := notFree_returns entry c h2.1
    obtain ⟨k, hk⟩ := notFreeList_returns entry cs h2.2
    refine ⟨max n k, ?_⟩
    intro x hx
    rcases List.mem_cons.mp hx with hx | hx
    · rw [hx]; exact ⟨b, matchesFilter_mono entry c b (Nat.le_max_left n k) hb⟩
    · obtain ⟨bx, hbx⟩ := hk x hx
      exact ⟨bx, matchesFilter_mono entry x bx (Nat.le_max_right n k) hbx⟩
end

/-! ## The claims -/

/-- C1: the negation case. On the first entry of the directory the equality
match of `objectClass` with `Gstudent` returns `false`, so the spec has its
negation return `true`; the call on the `FilterNot` filter returns nothing at any
stack depth, and neither does the scenario filter
`And([EqualityMatch(objectClass, Gperson), Not(EqualityMatch(objectClass, Gstudent))])`
on the `adam` entry or on the `john` entry. -/
theorem C1_FilterNot_scenario_never_returns :
    matchesFilter 1 (Filter.FilterEqualityMatch "objectClass" "Gstudent") adam = some false
    ∧ (∀ fuel, matchesFilter fuel
        (Filter.FilterNot (Filter.FilterEqualityMatch "objectClass" "Gstudent")) adam = none)
    ∧ (∀ fuel, matchesFilter fuel
        (Filter.FilterAnd [Filter.FilterEqualityMatch "objectClass" "Gperson",
          Filter.FilterNot (Filter.FilterEqualityMatch "objectClass" "Gstudent")]) adam = none)
    ∧ (∀ fuel, matchesFilter fuel
        (Filter.FilterAnd [Filter.FilterEqualityMatch "objectClass" "Gperson",
          Filter.FilterNot (Filter.FilterEqualityMatch "objectClass" "Gstudent")]) john = none) := by
  refine ⟨by decide, fun fuel => matchesFilter_FilterNot_none _ _ fuel, ?_, ?_⟩
  · intro fuel
    cases fuel with
    | zero => rfl
    | succ n =>
      rw [matchesFilter_succ_FilterAnd]
      cases n with
      | zero => rfl
      | succ k =>
        have h1 : matchesFilter (k + 1)
            (Filter.FilterEqualityMatch "objectClass" "Gperson") adam = some true := by
          rw [matchesFilter_succ_FilterEqualityMatch]; decide
        simp only [andLoop, h1, matchesFilter_FilterNot_none]
  · intro fuel
    cases fuel with
    | zero => rfl
    | succ n =>
      rw [matchesFilter_succ_FilterAnd]
      cases n with
      | zero => rfl
      | succ k =>
        have h1 : matchesFilter (k + 1)
            (Filter.FilterEqualityMatch "objectClass" "Gperson") john = some true := by
          rw [matchesFilter_succ_FilterEqualityMatch]; decide
        simp only [andLoop, h1, matchesFilter_FilterNot_none]

/-- C2: totality of the evaluator. A call on a filter whose root is a
`FilterNot` node never returns, for any child and any entry, so it is not the
case that every filter and entry have a stack depth at which the call returns a
boolean. -/
theorem C2_matches_not_total :
    (∀ (f : Filter) (entry : Entry), Diverges (Filter.FilterNot f) entry)
    ∧ ¬ (∀ (filter : Filter) (entry : Entry), ∃ b, Returns filter entry b) := by
  refine ⟨fun f entry fuel => matchesFilter_FilterNot_none f entry fuel, ?_⟩
  intro h
  obtain ⟨b, n, hn⟩ := h (Filter.FilterNot (Filter.FilterPresent "mail")) adam
  rw [matchesFilter_FilterNot_none] at hn
  exact Option.noConfusion hn

/-- C3: equality match on an absent attribute. The `adam` entry has no
`telephoneNumber` key, and the equality match of `telephoneNumber` with `555`
returns `true` at every stack depth of at least one, where the spec has `false`. -/
theorem C3_equalityMatch_absent_returns_true :
    adam.lookup "telephoneNumber" = none
    ∧ ∀ fuel, matchesFilter (fuel + 1)
        (Filter.FilterEqualityMatch "telephoneNumber" "555") adam = some true := by
  refine ⟨by decide, fun fuel => ?_⟩
  rw [matchesFilter_succ_FilterEqualityMatch, equalityMatch_absent adam _ _ (by decide)]

/-- C4: bind of an unknown principal. The name
`mail=nobody@example.com,dc=example,dc=com` is not a key of the credential store,
and with the empty secret the handler writes the `Success` response; a known
principal with a wrong secret gets `InvalidCredentials`. -/
theorem C4_unknown_principal_empty_secret_succeeds :
    binds.lookup "mail=nobody@example.com,dc=example,dc=com" = none
    ∧ bindHandler binds "mail=nobody@example.com,dc=example,dc=com" ""
        = [NewBindResponse LDAPResultSuccess]
    ∧ bindHandler binds "mail=bind@example.com,dc=example,dc=com" "4321"
        = [⟨LDAPResultInvalidCredentials, "invalid credentials"⟩] := by
  refine ⟨by decide, by decide, by decide⟩

/-- C5: bind of a known principal. When the name is a key of the credential
store with stored secret `stored`, the handler writes exactly one response; its
result code is `Success` if and only if the supplied secret equals the stored
one, and `InvalidCredentials` if and only if it differs. -/
theorem C5_bindHandler_known_principal (store : List (String × String))
    (name stored auth : String) (h : store.lookup name = some stored) :
    (bindHandler store name auth).length = 1
    ∧ ((bindHandler store name auth).map BindResponse.resultCode = [LDAPResultSuccess]
        ↔ auth = stored)
    ∧ ((bindHandler store name auth).map BindResponse.resultCode
          = [LDAPResultInvalidCredentials] ↔ auth ≠ stored) := by
  have hidx : mapIndex store name = stored := by simp [mapIndex, h]
  by_cases heq : auth = stored
  · subst heq
    simp [bindHandler, hidx, NewBindResponse, LDAPResultSuccess, LDAPResultInvalidCredentials]
  · have hne : ¬ stored = auth := fun e => heq e.symm
    simp [bindHandler, hidx, hne, heq, NewBindResponse, BindResponse.SetResultCode,
      BindResponse.SetDiagnosticMessage, LDAPResultSuccess, LDAPResultInvalidCredentials]

/-- Witness of C5 on the built-in credential store: the principal
`mail=bind@example.com,dc=example,dc=com` with `1234` gets `Success` and with
`4321` gets `InvalidCredentials`. -/
theorem C5_bindHandler_known_principal_witness :
    binds.lookup "mail=bind@example.com,dc=example,dc=com" = some "1234"
    ∧ (bindHandler binds "mail=bind@example.com,dc=example,dc=com" "1234").map
        BindResponse.resultCode = [LDAPResultSuccess]
    ∧ (bindHandler binds "mail=bind@example.com,dc=example,dc=com" "4321").map
        BindResponse.resultCode = [LDAPResultInvalidCredentials] :=
  ⟨by decide,
   (C5_bindHandler_known_principal binds "mail=bind@example.com,dc=example,dc=com"
      "1234" "1234" (by decide)).2.1.mpr rfl,
   (C5_bindHandler_known_principal binds "mail=bind@example.com,dc=example,dc=com"
      "1234" "4321" (by decide)).2.2.mpr (by decide)⟩

/-- C6: the scan of the search handler. For the filter
`Or([EqualityMatch(mail, john@example.com), Not(EqualityMatch(mail, adam@example.com))])`
the call on the `john` entry (index 1) returns `true` and the call on the `adam`
entry (index 0) never returns, so `john` is the lowest-index entry for which
`matches` returns `true`; the scan of the built-in directory selects nothing: it
does not return at any stack depth. -/
theorem C6_scan_never_selects_lowest_match :
    Returns (Filter.FilterOr [Filter.FilterEqualityMatch "mail" "john@example.com",
        Filter.FilterNot (Filter.FilterEqualityMatch "mail" "adam@example.com")]) john true
    ∧ Diverges (Filter.FilterOr [Filter.FilterEqualityMatch "mail" "john@example.com",
        Filter.FilterNot (Filter.FilterEqualityMatch "mail" "adam@example.com")]) adam
    ∧ ∀ fuel, findMatchingUser fuel
        (Filter.FilterOr [Filter.FilterEqualityMatch "mail" "john@example.com",
          Filter.FilterNot (Filter.FilterEqualityMatch "mail" "adam@example.com")]) db
        = none := by
  have hadam : ∀ fuel, matchesFilter fuel
      (Filter.FilterOr [Filter.FilterEqualityMatch "mail" "john@example.com",
        Filter.FilterNot (Filter.FilterEqualityMatch "mail" "adam@example.com")]) adam
      = none := by
    intro fuel
    cases fuel with
    | zero => rfl
    | succ n =>
      rw [matchesFilter_succ_FilterOr]
      cases n with
      | zero => rfl
      | succ k =>
        have h1 : matchesFilter (k + 1)
            (Filter.FilterEqualityMatch "mail" "john@example.com") adam = some false := by
          rw [matchesFilter_succ_FilterEqualityMatch]; decide
        simp only [orLoop, h1, matchesFilter_FilterNot_none]
  refine ⟨⟨2, by decide⟩, hadam, fun fuel => ?_⟩
  simp only [db, findMatchingUser, hadam]

/-- C7: conjunction. For every list of children `cs` and every entry, the call
on `And(cs)` returns `true` if and only if the call on every child of `cs`
returns `true`. In particular the call on `And([])` returns `true` at every stack
depth of at least one, and the call on `And([f1, f2])` behaves as the
short-circuit conjunction `matches(f1, e) && matches(f2, e)`: it returns `b`
exactly when `f1` returns `false` and `b` is `false`, or `f1` returns `true` and
`f2` returns `b`; when both children return, it returns the conjunction of their
results. -/
theorem C7_matches_FilterAnd (cs : List Filter) (entry : Entry) :
    (Returns (Filter.FilterAnd cs) entry true ↔ ∀ c ∈ cs, Returns c entry true)
    ∧ (∀ fuel, matchesFilter (fuel + 1) (Filter.FilterAnd []) entry = some true)
    ∧ (∀ (f1 f2 : Filter) (b : Bool),
        Returns (Filter.FilterAnd [f1, f2]) entry b ↔
          (Returns f1 entry false ∧ b = false) ∨ (Returns f1 entry true ∧ Returns f2 entry b))
    ∧ (∀ (f1 f2 : Filter) (b1 b2 : Bool), Returns f1 entry b1 → Returns f2 entry b2 →
        Returns (Filter.FilterAnd [f1, f2]) entry (b1 && b2)) := by
  have hpair : ∀ (f1 f2 : Filter) (b : Bool),
      Returns (Filter.FilterAnd [f1, f2]) entry b ↔
        (Returns f1 entry false ∧ b = false) ∨ (Returns f1 entry true ∧ Returns f2 entry b) := by
    intro f1 f2 b
    constructor
    · rintro ⟨n, hn⟩
      cases n with
      | zero => simp [matchesFilter_zero] at hn
      | succ k =>
        rw [matchesFilter_succ_FilterAnd] at hn
        cases h1 : matchesFilter k f1 entry with
        | none => simp [andLoop, h1] at hn
        | some v1 =>
          cases v1
          · simp only [andLoop, h1, Option.some.injEq] at hn
            exact Or.inl ⟨⟨k, h1⟩, hn.symm⟩
          · cases h2 : matchesFilter k f2 entry with
            | none => simp [andLoop, h1, h2] at hn
            | some v2 =>
              refine Or.inr ⟨⟨k, h1⟩, k, ?_⟩
              cases v2 <;> simp only [andLoop, h1, h2, Option.some.injEq] at hn <;>
                rw [← hn]
              · exact h2
              · exact h2
    · rintro (⟨⟨n, hn⟩, hb⟩ | ⟨⟨n, hn⟩, k, hk⟩)
      · refine ⟨n + 1, ?_⟩
        rw [matchesFilter_succ_FilterAnd, hb]
        simp only [andLoop, hn]
      · refine ⟨max n k + 1, ?_⟩
        have h1 := matchesFilter_mono entry f1 true (Nat.le_max_left n k) hn
        have h2 := matchesFilter_mono entry f2 b (Nat.le_max_right n k) hk
        rw [matchesFilter_succ_FilterAnd]
        cases b <;> simp only [andLoop, h1, h2]
  refine ⟨?_, fun fuel => rfl, hpair, ?_⟩
  · constructor
    · rintro ⟨n, hn⟩ c hc
      cases n with
      | zero => simp [matchesFilter_zero] at hn
      | succ k =>
        rw [matchesFilter_succ_FilterAnd] at hn
        exact ⟨k, (andLoop_eq_true_iff _ cs).mp hn c hc⟩
    · intro h
      obtain ⟨n, hn⟩ := exists_common_fuel entry true cs h
      refine ⟨n + 1, ?_⟩
      rw [matchesFilter_succ_FilterAnd]
      exact (andLoop_eq_true_iff _ cs).mpr hn
  · intro f1 f2 b1 b2 h1 h2
    cases b1
    · exact (hpair f1 f2 (false && b2)).mpr (Or.inl ⟨h1, rfl⟩)
    · refine (hpair f1 f2 (true && b2)).mpr (Or.inr ⟨h1, ?_⟩)
      simpa using h2

/-- C8: disjunction. With children `[Not(EqualityMatch(uid, 11)), Present(mail)]`
and the `adam` entry, the call on the second child returns `true`, so the spec
has the call on the `Or` filter return `true`; the call on the first child never
returns, and neither does the call on the `Or` filter. -/
theorem C8_FilterOr_never_returns_after_FilterNot :
    matchesFilter 1 (Filter.FilterPresent "mail") adam = some true
    ∧ Diverges (Filter.FilterNot (Filter.FilterEqualityMatch "uid" "11")) adam
    ∧ Diverges (Filter.FilterOr [Filter.FilterNot (Filter.FilterEqualityMatch "uid" "11"),
        Filter.FilterPresent "mail"]) adam := by
  refine ⟨rfl, fun fuel => matchesFilter_FilterNot_none _ _ fuel, fun fuel => ?_⟩
  cases fuel with
  | zero => rfl
  | succ n =>
    rw [matchesFilter_succ_FilterOr]
    simp only [orLoop, matchesFilter_FilterNot_none]

/-- C9: equality match on a multi-valued attribute. When the entry holds the
list `l` under `a`, the call on `EqualityMatch(a, v)` returns at every stack
depth of at least one, and its result is `true` exactly when `v` is an element
of `l`, at whatever position; with the empty list it returns `false`. -/
theorem C9_equalityMatch_strings (entry : Entry) (a v : String) (l : List String)
    (h : entry.lookup a = some (Value.strings l)) :
    (∀ fuel, matchesFilter (fuel + 1) (Filter.FilterEqualityMatch a v) entry
        = some (decide (v ∈ l)))
    ∧ (Returns (Filter.FilterEqualityMatch a v) entry true ↔ ∃ s ∈ l, s = v)
    ∧ (l = [] → ∀ fuel, matchesFilter (fuel + 1) (Filter.FilterEqualityMatch a v) entry
        = some false) := by
  have hall : ∀ fuel, matchesFilter (fuel + 1) (Filter.FilterEqualityMatch a v) entry
      = some (decide (v ∈ l)) := by
    intro fuel
    rw [matchesFilter_succ_FilterEqualityMatch]
    simp only [equalityMatch, h, stringsLoop_eq_decide]
  refine ⟨hall, ?_, ?_⟩
  · constructor
    · rintro ⟨n, hn⟩
      cases n with
      | zero => simp [matchesFilter_zero] at hn
      | succ k =>
        rw [hall k] at hn
        have hv : v ∈ l := by simpa using hn
        exact ⟨v, hv, rfl⟩
    · rintro ⟨s, hs, hsv⟩
      refine ⟨1, ?_⟩
      rw [hall 0]
      subst hsv
      simp [hs]
  · intro hl fuel
    rw [hall fuel, hl]
    simp

/-- Witness of C9 on the `adam` entry, whose `objectClass` list holds `top` at
its third position and does not hold `Gstudent`. -/
theorem C9_equalityMatch_strings_witness :
    adam.lookup "objectClass"
      = some (Value.strings ["Gperson", "Gstaff", "top", "posixAccount", "inetOrgPerson"])
    ∧ matchesFilter 1 (Filter.FilterEqualityMatch "objectClass" "top") adam = some true
    ∧ ¬ Returns (Filter.FilterEqualityMatch "objectClass" "Gstudent") adam true :=
  ⟨by decide,
   by
    have h := (C9_equalityMatch_strings adam "objectClass" "top"
      ["Gperson", "Gstaff", "top", "posixAccount", "inetOrgPerson"] (by decide)).1 0
    rw [h]; decide,
   by
    rw [(C9_equalityMatch_strings adam "objectClass" "Gstudent"
      ["Gperson", "Gstaff", "top", "posixAccount", "inetOrgPerson"] (by decide)).2.1]
    decide⟩

/-- C10: equality match on a single-valued attribute. When the entry holds the
string `s` under `a`, the call on `EqualityMatch(a, v)` returns at every stack
depth of at least one, and its result is `true` exactly when `s` and `v` are the
same string. -/
theorem C10_equalityMatch_string (entry : Entry) (a v s : String)
    (h : entry.lookup a = some (Value.string s)) :
    (∀ fuel, matchesFilter (fuel + 1) (Filter.FilterEqualityMatch a v) entry
        = some (decide (s = v)))
    ∧ (Returns (Filter.FilterEqualityMatch a v) entry true ↔ s = v) := by
  have hall : ∀ fuel, matchesFilter (fuel + 1) (Filter.FilterEqualityMatch a v) entry
      = some (decide (s = v)) := by
    intro fuel
    rw [matchesFilter_succ_FilterEqualityMatch]
    simp only [equalityMatch, h]
  refine ⟨hall, ?_⟩
  constructor
  · rintro ⟨n, hn⟩
    cases n with
    | zero => simp [matchesFilter_zero] at hn
    | succ k =>
      rw [hall k] at hn
      simpa using hn
  · intro hsv
    refine ⟨1, ?_⟩
    rw [hall 0]
    simp [hsv]

/-- Witness of C10 on the `adam` entry: `cn` holds `Adam Doe`, which matches
itself and does not match the lower-case `adam doe`. -/
theorem C10_equalityMatch_string_witness :
    adam.lookup "cn" = some (Value.string "Adam Doe")
    ∧ Returns (Filter.FilterEqualityMatch "cn" "Adam Doe") adam true
    ∧ matchesFilter 1 (Filter.FilterEqualityMatch "cn" "adam doe") adam = some false :=
  ⟨by decide,
   (C10_equalityMatch_string adam "cn" "Adam Doe" "Adam Doe" (by decide)).2.mpr rfl,
   by
    have h := (C10_equalityMatch_string adam "cn" "adam doe" "Adam Doe" (by decide)).1 0
    rw [h]; decide⟩

/-! ## Lemmas on the search handler -/

theorem addAttributes_append (entry : Entry) (xs ys : List String) :
    addAttributes entry (xs ++ ys) = addAttributes entry xs ++ addAttributes entry ys := by
  induction xs with
  | nil => simp [addAttributes]
  | cons x rest ih => simp [addAttributes, ih]

theorem mem_of_findMatchingUser (fuel : Nat) (filter : Filter) (directory : List Entry)
    (user : Entry) (h : findMatchingUser fuel filter directory = some (some user)) :
    user ∈ directory := by
  obtain ⟨pre, post, hd, _, _⟩ := (findMatchingUser_eq_some_iff fuel filter directory user).mp h
  rw [hd]
  simp

/-- Every entry of the built-in directory holds a string under `mail`. -/
theorem db_mail (user : Entry) (h : user ∈ db) :
    ∃ mail, user.lookup "mail" = some (Value.string mail) := by
  simp only [db, List.mem_cons, List.mem_singleton, List.not_mem_nil, or_false] at h
  rcases h with h | h
  · exact ⟨"adam@example.com", by rw [h]; decide⟩
  · exact ⟨"john@example.com", by rw [h]; decide⟩

/-- What the handler writes once the scan has selected an entry that holds a
string under `mail`. -/
theorem searchHandler_of_selected (fuel : Nat) (directory : List Entry) (r : SearchRequest)
    (user : Entry) (mail : String)
    (hscan : findMatchingUser fuel r.filter directory = some (some user))
    (hmail : user.lookup "mail" = some (Value.string mail)) :
    searchHandler fuel directory r = Outcome.returned
      [SearchResponse.SearchResultEntry ("mail=" ++ mail ++ ",dc=example,dc=com")
         (addAttributes user r.attributes),
       SearchResponse.SearchResultDoneResponse LDAPResultSuccess] := by
  simp only [searchHandler, hscan, hmail]

/-- What the handler writes when the scan ends without a selected entry. -/
theorem searchHandler_of_no_match (fuel : Nat) (directory : List Entry) (r : SearchRequest)
    (hscan : findMatchingUser fuel r.filter directory = some none) :
    searchHandler fuel directory r
      = Outcome.returned [SearchResponse.SearchResultDoneResponse LDAPResultSuccess] := by
  simp only [searchHandler, hscan]

/-- The handler ends in a stack overflow when a call of `matches` in the scan
does not return. -/
theorem searchHandler_of_overflow (fuel : Nat) (directory : List Entry) (r : SearchRequest)
    (hscan : findMatchingUser fuel r.filter directory = none) :
    searchHandler fuel directory r = Outcome.stackOverflow := by
  simp only [searchHandler, hscan]

/-! ## The claims, continued -/

/-- C11: filter kinds without a case. For every filter that is none of `And`,
`Or`, `Not` and `EqualityMatch`, and every entry, the call returns `true` at
every stack depth of at least one. -/
theorem C11_matches_other_kind (filter : Filter) (entry : Entry)
    (hAnd : ∀ cs, filter ≠ Filter.FilterAnd cs)
    (hOr : ∀ cs, filter ≠ Filter.FilterOr cs)
    (hNot : ∀ f, filter ≠ Filter.FilterNot f)
    (hEq : ∀ a v, filter ≠ Filter.FilterEqualityMatch a v) :
    (∀ fuel, matchesFilter (fuel + 1) filter entry = some true)
    ∧ Returns filter entry true := by
  have hall : ∀ fuel, matchesFilter (fuel + 1) filter entry = some true := by
    intro fuel
    cases filter with
    | FilterAnd cs => exact absurd rfl (hAnd cs)
    | FilterOr cs => exact absurd rfl (hOr cs)
    | FilterNot f => exact absurd rfl (hNot f)
    | FilterEqualityMatch a v => exact absurd rfl (hEq a v)
    | FilterSubstrings t ss => rfl
    | FilterGreaterOrEqual a v => rfl
    | FilterLessOrEqual a v => rfl
    | FilterPresent a => rfl
    | FilterApproxMatch a v => rfl
    | FilterExtensibleMatch r t v d => rfl
  exact ⟨hall, 1, hall 0⟩

/-- Witness of C11: a substring filter on an attribute the `adam` entry does not
hold returns `true`. -/
theorem C11_matches_other_kind_witness :
    matchesFilter 1 (Filter.FilterSubstrings "telephoneNumber" ["555"]) adam = some true :=
  (C11_matches_other_kind (Filter.FilterSubstrings "telephoneNumber" ["555"]) adam
    (fun _ h => Filter.noConfusion h) (fun _ h => Filter.noConfusion h)
    (fun _ h => Filter.noConfusion h) (fun _ _ h => Filter.noConfusion h)).1 0

/-- C12: the attribute projection. The pairs added for a list of requested
names are the concatenation, in request order, of the pairs added for each name:
`[(name, s)]` when the entry holds the string `s`, one pair per element in list
order when it holds a list, and nothing when the name is absent. A name requested
twice is emitted twice. The handler puts exactly these pairs in the entry it
writes. -/
theorem C12_addAttributes (entry : Entry) :
    (∀ names, addAttributes entry names
        = names.flatMap (fun name => addAttributes entry [name]))
    ∧ (∀ xs ys, addAttributes entry (xs ++ ys)
        = addAttributes entry xs ++ addAttributes entry ys)
    ∧ (∀ name s, entry.lookup name = some (Value.string s) →
        addAttributes entry [name] = [(name, s)])
    ∧ (∀ name l, entry.lookup name = some (Value.strings l) →
        addAttributes entry [name] = l.map (fun v => (name, v)))
    ∧ (∀ name, entry.lookup name = none → addAttributes entry [name] = [])
    ∧ (∀ name, addAttributes entry [name, name]
        = addAttributes entry [name] ++ addAttributes entry [name])
    ∧ (∀ fuel directory r mail,
        findMatchingUser fuel r.filter directory = some (some entry) →
        entry.lookup "mail" = some (Value.string mail) →
        searchHandler fuel directory r = Outcome.returned
          [SearchResponse.SearchResultEntry ("mail=" ++ mail ++ ",dc=example,dc=com")
             (addAttributes entry r.attributes),
           SearchResponse.SearchResultDoneResponse LDAPResultSuccess]) := by
  refine ⟨?_, addAttributes_append entry, ?_, ?_, ?_, ?_, ?_⟩
  · intro names
    induction names with
    | nil => simp [addAttributes]
    | cons x rest ih =>
      have h := addAttributes_append entry [x] rest
      simp only [List.singleton_append] at h
      rw [h, ih]
      simp [List.flatMap_cons]
  · intro name s h
    simp [addAttributes, h]
  · intro name l h
    simp [addAttributes, h]
  · intro name h
    simp [addAttributes, h]
  · intro name
    exact addAttributes_append entry [name] [name]
  · intro fuel directory r mail hscan hmail
    exact searchHandler_of_selected fuel directory r entry mail hscan hmail

/-- C13: the responses of the search handler. The two scenarios of the claim
hold on the built-in directory: the equality match of `mail` with
`adam@example.com` requesting `uid` writes one entry with the pair `(uid, 199)`
and then `Done(Success)`, and the match with `nonexistent@example.com` writes only
`Done(Success)`. For the filter `Not(EqualityMatch(mail, nonexistent@example.com))`
the handler writes nothing: the scan does not return at any stack depth, so no
`SearchResultDone` is ever written. -/
theorem C13_searchHandler_FilterNot_writes_nothing :
    searchHandler 1 db
        ⟨"dc=example,dc=com", Filter.FilterEqualityMatch "mail" "adam@example.com", ["uid"], 0⟩
      = Outcome.returned
          [SearchResponse.SearchResultEntry "mail=adam@example.com,dc=example,dc=com"
             [("uid", "199")],
           SearchResponse.SearchResultDoneResponse LDAPResultSuccess]
    ∧ searchHandler 1 db
        ⟨"dc=example,dc=com", Filter.FilterEqualityMatch "mail" "nonexistent@example.com",
          ["uid"], 0⟩
      = Outcome.returned [SearchResponse.SearchResultDoneResponse LDAPResultSuccess]
    ∧ ∀ fuel, searchHandler fuel db
        ⟨"dc=example,dc=com",
          Filter.FilterNot (Filter.FilterEqualityMatch "mail" "nonexistent@example.com"),
          ["uid"], 0⟩
      = Outcome.stackOverflow := by
  refine ⟨by decide, by decide, fun fuel => ?_⟩
  apply searchHandler_of_overflow
  simp only [db, findMatchingUser, matchesFilter_FilterNot_none]

/-- C14: the DN of the entry written. When the scan has selected an entry that
holds the string `mail` under `mail`, the handler writes an entry whose DN is
`mail=` followed by that string followed by `,dc=example,dc=com`, and the same
DN is written for every base DN, requested-attribute list and time limit
presented with the same filter. -/
theorem C14_searchHandler_dn (fuel : Nat) (directory : List Entry) (r : SearchRequest)
    (user : Entry) (mail : String)
    (hscan : findMatchingUser fuel r.filter directory = some (some user))
    (hmail : user.lookup "mail" = some (Value.string mail)) :
    searchHandler fuel directory r = Outcome.returned
      [SearchResponse.SearchResultEntry ("mail=" ++ mail ++ ",dc=example,dc=com")
         (addAttributes user r.attributes),
       SearchResponse.SearchResultDoneResponse LDAPResultSuccess]
    ∧ ∀ (baseObject : String) (attributes : List String) (timeLimit : Int),
        searchHandler fuel directory ⟨baseObject, r.filter, attributes, timeLimit⟩
          = Outcome.returned
            [SearchResponse.SearchResultEntry ("mail=" ++ mail ++ ",dc=example,dc=com")
               (addAttributes user attributes),
             SearchResponse.SearchResultDoneResponse LDAPResultSuccess] :=
  ⟨searchHandler_of_selected fuel directory r user mail hscan hmail,
   fun baseObject attributes timeLimit =>
    searchHandler_of_selected fuel directory ⟨baseObject, r.filter, attributes, timeLimit⟩
      user mail hscan hmail⟩

/-- Witness of C14 on the built-in directory: the filter
`EqualityMatch(uid, 11)` selects the `john` entry, and the DN written is
`mail=john@example.com,dc=example,dc=com` whatever base DN is presented. -/
theorem C14_searchHandler_dn_witness :
    searchHandler 1 db ⟨"ou=people,dc=other,dc=org", Filter.FilterEqualityMatch "uid" "11",
        ["cn"], 0⟩
      = Outcome.returned
          [SearchResponse.SearchResultEntry
             ("mail=" ++ "john@example.com" ++ ",dc=example,dc=com")
             (addAttributes john ["cn"]),
           SearchResponse.SearchResultDoneResponse LDAPResultSuccess] :=
  (C14_searchHandler_dn 1 db
    ⟨"dc=example,dc=com", Filter.FilterEqualityMatch "uid" "11", ["uid"], 0⟩
    john "john@example.com" (by decide) (by decide)).2 "ou=people,dc=other,dc=org" ["cn"] 0

/-- C15: the empty requested-attribute list. When the scan has selected an entry
and the request asks for no attribute, no pair is added, whatever the entry
holds; the entry written (once the DN is built from a string under `mail`, which
every entry of the built-in directory holds) carries the empty sequence of
pairs. -/
theorem C15_searchHandler_empty_attributes (fuel : Nat) (directory : List Entry)
    (r : SearchRequest) (user : Entry)
    (hscan : findMatchingUser fuel r.filter directory = some (some user))
    (hattrs : r.attributes = []) :
    addAttributes user r.attributes = []
    ∧ (∀ mail, user.lookup "mail" = some (Value.string mail) →
        searchHandler fuel directory r = Outcome.returned
          [SearchResponse.SearchResultEntry ("mail=" ++ mail ++ ",dc=example,dc=com") [],
           SearchResponse.SearchResultDoneResponse LDAPResultSuccess])
    ∧ (directory = db → ∃ dn,
        searchHandler fuel directory r = Outcome.returned
          [SearchResponse.SearchResultEntry dn [],
           SearchResponse.SearchResultDoneResponse LDAPResultSuccess]) := by
  have hnil : addAttributes user r.attributes = [] := by rw [hattrs]; rfl
  have hgen : ∀ mail, user.lookup "mail" = some (Value.string mail) →
      searchHandler fuel directory r = Outcome.returned
        [SearchResponse.SearchResultEntry ("mail=" ++ mail ++ ",dc=example,dc=com") [],
         SearchResponse.SearchResultDoneResponse LDAPResultSuccess] := by
    intro mail hmail
    rw [searchHandler_of_selected fuel directory r user mail hscan hmail, hnil]
  refine ⟨hnil, hgen, ?_⟩
  intro hdb
  have hmem : user ∈ db := by
    rw [← hdb]; exact mem_of_findMatchingUser fuel r.filter directory user hscan
  obtain ⟨mail, hmail⟩ := db_mail user hmem
  exact ⟨_, hgen mail hmail⟩

/-- Witness of C15 on the built-in directory: the `adam` entry holds four
attributes, and a request for no attribute gets an entry without pairs. -/
theorem C15_searchHandler_empty_attributes_witness :
    searchHandler 1 db
        ⟨"dc=example,dc=com", Filter.FilterEqualityMatch "mail" "adam@example.com", [], 0⟩
      = Outcome.returned
          [SearchResponse.SearchResultEntry
             ("mail=" ++ "adam@example.com" ++ ",dc=example,dc=com") [],
           SearchResponse.SearchResultDoneResponse LDAPResultSuccess] :=
  (C15_searchHandler_empty_attributes 1 db
    ⟨"dc=example,dc=com", Filter.FilterEqualityMatch "mail" "adam@example.com", [], 0⟩
    adam (by decide) rfl).2.1 "adam@example.com" (by decide)

/-- C16: the diagnostic message of the bind response. For every credential store,
name and secret the handler writes exactly one response; it is either the
`Success` response with no diagnostic message set, or the `InvalidCredentials`
response with the message `invalid credentials`, so a message is set if and only
if the result code is `InvalidCredentials`. -/
theorem C16_bindHandler_diagnostic (store : List (String × String)) (name auth : String) :
    ∃ res, bindHandler store name auth = [res]
      ∧ ((res.resultCode = LDAPResultSuccess ∧ res.diagnosticMessage = "")
          ∨ (res.resultCode = LDAPResultInvalidCredentials
              ∧ res.diagnosticMessage = "invalid credentials"))
      ∧ (res.diagnosticMessage ≠ "" ↔ res.resultCode = LDAPResultInvalidCredentials) := by
  by_cases h : mapIndex store name = auth
  · refine ⟨NewBindResponse LDAPResultSuccess, by simp [bindHandler, h], Or.inl ⟨rfl, rfl⟩, ?_⟩
    simp [NewBindResponse, LDAPResultSuccess, LDAPResultInvalidCredentials]
  · refine ⟨⟨LDAPResultInvalidCredentials, "invalid credentials"⟩, ?_, Or.inr ⟨rfl, rfl⟩, ?_⟩
    · simp [bindHandler, h, NewBindResponse, BindResponse.SetResultCode,
        BindResponse.SetDiagnosticMessage]
    · constructor
      · intro _; rfl
      · intro _; decide

/-- C17: the DN synthesis on the built-in directory. Every entry of the directory
holds a string under `mail`; the handler never ends in the panic of the type
assertion, and whenever the scan has selected an entry the handler writes the
entry with the DN built from that string, followed by `Done(Success)`. -/
theorem C17_db_mail_never_panics :
    (∀ user ∈ db, ∃ mail, user.lookup "mail" = some (Value.string mail))
    ∧ (∀ (fuel : Nat) (r : SearchRequest), searchHandler fuel db r ≠ Outcome.panicked)
    ∧ (∀ (fuel : Nat) (r : SearchRequest) (user : Entry),
        findMatchingUser fuel r.filter db = some (some user) →
        ∃ mail, user.lookup "mail" = some (Value.string mail)
          ∧ searchHandler fuel db r = Outcome.returned
              [SearchResponse.SearchResultEntry ("mail=" ++ mail ++ ",dc=example,dc=com")
                 (addAttributes user r.attributes),
               SearchResponse.SearchResultDoneResponse LDAPResultSuccess]) := by
  have hsel : ∀ (fuel : Nat) (r : SearchRequest) (user : Entry),
      findMatchingUser fuel r.filter db = some (some user) →
      ∃ mail, user.lookup "mail" = some (Value.string mail)
        ∧ searchHandler fuel db r = Outcome.returned
            [SearchResponse.SearchResultEntry ("mail=" ++ mail ++ ",dc=example,dc=com")
               (addAttributes user r.attributes),
             SearchResponse.SearchResultDoneResponse LDAPResultSuccess] := by
    intro fuel r user hscan
    obtain ⟨mail, hmail⟩ := db_mail user (mem_of_findMatchingUser fuel r.filter db user hscan)
    exact ⟨mail, hmail, searchHandler_of_selected fuel db r user mail hscan hmail⟩
  refine ⟨db_mail, ?_, hsel⟩
  intro fuel r
  cases hscan : findMatchingUser fuel r.filter db with
  | none => rw [searchHandler_of_overflow fuel db r hscan]; exact fun h => Outcome.noConfusion h
  | some sel =>
    cases sel with
    | none =>
      rw [searchHandler_of_no_match fuel db r hscan]; exact fun h => Outcome.noConfusion h
    | some user =>
      obtain ⟨mail, _, hout⟩ := hsel fuel r user hscan
      rw [hout]; exact fun h => Outcome.noConfusion h

/-- C18: short circuit of the conjunction. When every child before a child `c`
returns `true` and `c` returns `false`, there is a stack depth at which the call
on `And` of these children followed by any further children `post` returns
`false`, the same depth and result for every `post`, also when children of
`post` never return. -/
theorem C18_FilterAnd_short_circuit (pre : List Filter) (c : Filter) (entry : Entry)
    (hpre : ∀ x ∈ pre, Returns x entry true) (hc : Returns c entry false) :
    ∃ fuel, ∀ post : List Filter,
      matchesFilter fuel (Filter.FilterAnd (pre ++ c :: post)) entry = some false := by
  obtain ⟨n, hn⟩ := exists_common_fuel entry true pre hpre
  obtain ⟨k, hk⟩ := hc
  refine ⟨max n k + 1, fun post => ?_⟩
  rw [matchesFilter_succ_FilterAnd]
  refine (andLoop_eq_false_iff _ _).mpr ⟨pre, c, post, rfl, ?_, ?_⟩
  · intro x hx
    exact matchesFilter_mono entry x true (Nat.le_max_left n k) (hn x hx)
  · exact matchesFilter_mono entry c false (Nat.le_max_right n k) hk

/-- Witness of C18 on the `adam` entry: after the child
`EqualityMatch(objectClass, Gperson)`, which returns `true`, the child
`EqualityMatch(objectClass, Gstudent)` returns `false` and ends the loop, whatever
follows it. -/
theorem C18_FilterAnd_short_circuit_witness :
    ∃ fuel, ∀ post : List Filter,
      matchesFilter fuel
        (Filter.FilterAnd ([Filter.FilterEqualityMatch "objectClass" "Gperson"]
          ++ Filter.FilterEqualityMatch "objectClass" "Gstudent" :: post)) adam
        = some false :=
  C18_FilterAnd_short_circuit [Filter.FilterEqualityMatch "objectClass" "Gperson"]
    (Filter.FilterEqualityMatch "objectClass" "Gstudent") adam
    (fun x hx => by
      rw [List.mem_singleton.mp hx]
      exact ⟨1, by decide⟩)
    ⟨1, by decide⟩

/-- C19: termination without negation. For every filter tree that contains no
`FilterNot` node and every entry, the call returns a boolean at some stack
depth. -/
theorem C19_notFree_terminates (filter : Filter) (entry : Entry)
    (h : filter.notFree = true) : ∃ b, Returns filter entry b := by
  obtain ⟨n, b, hb⟩ := notFree_returns entry filter h
  exact ⟨b, n, hb⟩

/-- Witness of C19: a tree of depth three built from `And`, `Or`, an equality
match and a presence filter is evaluated on the `adam` entry. -/
theorem C19_notFree_terminates_witness :
    ∃ b, Returns
      (Filter.FilterAnd [Filter.FilterEqualityMatch "objectClass" "Gperson",
        Filter.FilterOr [Filter.FilterPresent "mail",
          Filter.FilterAnd [Filter.FilterEqualityMatch "uid" "11"]]]) adam b :=
  C19_notFree_terminates
    (Filter.FilterAnd [Filter.FilterEqualityMatch "objectClass" "Gperson",
      Filter.FilterOr [Filter.FilterPresent "mail",
        Filter.FilterAnd [Filter.FilterEqualityMatch "uid" "11"]]]) adam (by decide)

/-- C20: the responses do not depend on the base DN or the time limit. Two
requests with the same filter and the same requested attributes get the same
outcome from the handler, over any directory and at any stack depth. -/
theorem C20_searchHandler_base_and_limit_unused (fuel : Nat) (directory : List Entry)
    (r1 r2 : SearchRequest) (hfilter : r1.filter = r2.filter)
    (hattrs : r1.attributes = r2.attributes) :
    searchHandler fuel directory r1 = searchHandler fuel directory r2 := by
  simp only [searchHandler, hfilter, hattrs]

/-- Witness of C20 on the built-in directory: the same filter and attributes
under two base DNs and two time limits. -/
theorem C20_searchHandler_base_and_limit_unused_witness :
    searchHandler 1 db
        ⟨"dc=example,dc=com", Filter.FilterEqualityMatch "mail" "adam@example.com", ["uid"], 0⟩
      = searchHandler 1 db
        ⟨"ou=people,dc=other,dc=org", Filter.FilterEqualityMatch "mail" "adam@example.com",
          ["uid"], 30⟩ :=
  C20_searchHandler_base_and_limit_unused 1 db
    ⟨"dc=example,dc=com", Filter.FilterEqualityMatch "mail" "adam@example.com", ["uid"], 0⟩
    ⟨"ou=people,dc=other,dc=org", Filter.FilterEqualityMatch "mail" "adam@example.com",
      ["uid"], 30⟩ rfl rfl

end LdapTestServer
